import Mathlib

/-!
Verification development for the `http` crate's message-representation layer.

The central object is the header multimap (`HeaderMap`): a case-insensitive,
insertion-order-preserving, multi-valued associative structure.  The map's own
implementation file is not part of the available sources (only its test suite
is), so the map is modelled from the specification; the request `Builder`
(src/request.rs) and `HeaderValue` (src/header/value.rs) are embedded directly
from their source.
-/

/-- ASCII lowercasing of a single character: `A`..`Z` map to `a`..`z`, every
other character is unchanged. -/
def asciiLowerChar (c : Char) : Char :=
  if 'A' ≤ c ∧ c ≤ 'Z' then Char.ofNat (c.toNat + 32) else c

/-- ASCII lowercasing of a string, the canonical form of a header name. -/
def asciiLower (s : String) : String :=
  ⟨s.data.map asciiLowerChar⟩

/-- Modelled from the spec: case-insensitive equality of header names
("two keys differing only by ASCII case … compare equal"); the map's key
comparison.  The name construction/validation collaborator is out of scope. -/
def nameEqb (a b : String) : Bool :=
  asciiLower a == asciiLower b

/-- Modelled from the spec: the header multimap, §3 "HeaderMap (the table)".
The probing hash table is abstracted to its observable contents: an ordered
list of (stored key, ordered value sequence) groups, one group per distinct
(case-insensitive) key.  The spec fixes no user-visible group order, so the
model's group order carries no significance beyond existence. -/
structure HeaderMap (α : Type) : Type where
  entries : List (String × List α)

/-- Modelled from the spec: construction, "a map is created empty". -/
def HeaderMap.empty {α : Type} : HeaderMap α :=
  ⟨[]⟩

/-- Lookup of a key's ordered value sequence in the group list. -/
def getAllE {α : Type} : List (String × List α) → String → List α
  | [], _ => []
  | p :: rest, n => if nameEqb p.1 n then p.2 else getAllE rest n

/-- Modelled from the spec: `get_all(name) -> ordered sequence` (§6 Query). -/
def HeaderMap.getAll {α : Type} (m : HeaderMap α) (n : String) : List α :=
  getAllE m.entries n

/-- Modelled from the spec: `get_first(name) -> Option<value>` (§6 Query). -/
def HeaderMap.getFirst {α : Type} (m : HeaderMap α) (n : String) : Option α :=
  (m.getAll n).head?

/-- Membership of a key in the group list. -/
def containsE {α : Type} : List (String × List α) → String → Bool
  | [], _ => false
  | p :: rest, n => nameEqb p.1 n || containsE rest n

/-- Modelled from the spec: `contains(name) -> bool` (§6 Query). -/
def HeaderMap.containsName {α : Type} (m : HeaderMap α) (n : String) : Bool :=
  containsE m.entries n

/-- Modelled from the spec: `len() -> distinct key count` (§6 Query). -/
def HeaderMap.len {α : Type} (m : HeaderMap α) : Nat :=
  m.entries.length

/-- Modelled from the spec: `len_values() -> total value count` (§6 Query). -/
def HeaderMap.lenValues {α : Type} (m : HeaderMap α) : Nat :=
  (m.entries.map (fun p => p.2.length)).sum

/-- Append into the group list: extend the matching group's value sequence at
its tail, or create the key at the end when absent. -/
def appendE {α : Type} : List (String × List α) → String → α → List (String × List α)
  | [], n, v => [(n, [v])]
  | p :: rest, n, v =>
    if nameEqb p.1 n then (p.1, p.2 ++ [v]) :: rest
    else p :: appendE rest n v

/-- Modelled from the spec: `append(name, value)` — append semantics, "adds to
the tail of the chain … creating the key if absent" (§4.3, §6). -/
def HeaderMap.appendPair {α : Type} (m : HeaderMap α) (n : String) (v : α) : HeaderMap α :=
  ⟨appendE m.entries n v⟩

/-- A whole sequence of appends under one name, first value first. -/
def HeaderMap.appendSeq {α : Type} (m : HeaderMap α) (n : String) (vs : List α) : HeaderMap α :=
  vs.foldl (fun acc v => acc.appendPair n v) m

/-- Replace-semantics insertion into the group list: the matching group's
value sequence is truncated to the single new value and the prior sequence is
returned; the key is created when absent and nothing is returned. -/
def insertE {α : Type} : List (String × List α) → String → α →
    Option (List α) × List (String × List α)
  | [], n, v => (none, [(n, [v])])
  | p :: rest, n, v =>
    if nameEqb p.1 n then (some p.2, (p.1, [v]) :: rest)
    else
      let r := insertE rest n v
      (r.1, p :: r.2)

/-- Modelled from the spec: `insert_replacing(name, value) -> prior values` —
replace semantics, "replaces the entire value sequence with a single new value
and returns the previous sequence" (§4.3, §6). -/
def HeaderMap.insertReplacing {α : Type} (m : HeaderMap α) (n : String) (v : α) :
    Option (List α) × HeaderMap α :=
  let r := insertE m.entries n v
  (r.1, ⟨r.2⟩)

/-- Removal from the group list: the matching group is deleted and its value
sequence returned. -/
def removeE {α : Type} : List (String × List α) → String →
    Option (List α) × List (String × List α)
  | [], _ => (none, [])
  | p :: rest, n =>
    if nameEqb p.1 n then (some p.2, rest)
    else
      let r := removeE rest n
      (r.1, p :: r.2)

/-- Modelled from the spec: `remove(name) -> removed values` — "deletes the
key and its entire chain, returning the ordered value sequence" (§4.3, §6). -/
def HeaderMap.removeName {α : Type} (m : HeaderMap α) (n : String) :
    Option (List α) × HeaderMap α :=
  let r := removeE m.entries n
  (r.1, ⟨r.2⟩)

/-- Modelled from the spec: `drain()` (§4.5) — yields every (name, ordered
values) group and consumes the map: "upon the sequence being fully exhausted
…, the table returns to empty state". The fully-exhausted drain is modelled
as the list of yielded groups together with the resulting empty map. -/
def HeaderMap.drainAll {α : Type} (m : HeaderMap α) :
    List (String × List α) × HeaderMap α :=
  (m.entries, HeaderMap.empty)

/-- Well-formedness of a group list: no two groups share a case-insensitive
key.  Every map reachable from `empty` by the mutation API satisfies it. -/
def wfE {α : Type} : List (String × List α) → Bool
  | [] => true
  | p :: rest => rest.all (fun q => !nameEqb p.1 q.1) && wfE rest

/-- Well-formedness of a map. -/
def HeaderMap.wf {α : Type} (m : HeaderMap α) : Bool :=
  wfE m.entries

/-- Modelled from the spec: map equality (§3) — "two maps are equal iff they
have the same set of keys, and for each key the ordered value sequence is
identical — key iteration order need not match, but per-key value order
must." -/
def HeaderMap.eqb {α : Type} [BEq α] (a b : HeaderMap α) : Bool :=
  a.entries.all (fun p => b.getAll p.1 == a.getAll p.1) &&
  b.entries.all (fun p => a.getAll p.1 == b.getAll p.1)

/-- Modelled from the spec: the capacity-exceeded error of §7 ("insertion
would require growing past the implementation-defined maximum entry or value
count"), the table's only error. -/
inductive CapacityError : Type
  | capacityExceeded
  deriving DecidableEq

/-- Modelled from the spec: capacity-checked append (§4.1/§7).  The maximum
entry count and maximum value count are implementation-defined constants,
taken here as parameters.  On success the full append effect is applied; at
the ceiling the map is returned unchanged together with the distinct
`capacityExceeded` error (insertion is all-or-nothing). -/
def HeaderMap.tryAppend {α : Type} (maxEntries maxValues : Nat) (m : HeaderMap α)
    (n : String) (v : α) : HeaderMap α × Option CapacityError :=
  let newEntries := if m.containsName n then m.len else m.len + 1
  if newEntries ≤ maxEntries ∧ m.lenValues + 1 ≤ maxValues then (m.appendPair n v, none)
  else (m, some CapacityError.capacityExceeded)

/-- Modelled from the spec: the danger level of §4.4, states Green, Yellow,
Red. -/
inductive DangerLevel : Type
  | green
  | yellow
  | red
  deriving DecidableEq

/-- Modelled from the spec: the per-table danger escalation state (§4.4) — the
current level together with the cumulative displacement observed over the
table's insertions. -/
structure Danger : Type where
  level : DangerLevel
  displacement : Nat

/-- Modelled from the spec: the danger state a table is constructed with
("Green is the default"). -/
def Danger.initial : Danger :=
  ⟨DangerLevel.green, 0⟩

/-- Modelled from the spec: "all subsequent hashing for that table uses the
new function" — in Red the table hashes with the keyed, per-instance-seeded
function, otherwise with the fast default. -/
def Danger.usesSeededHash (d : Danger) : Bool :=
  match d.level with
  | DangerLevel.red => true
  | _ => false

/-- Modelled from the spec: §4.4's observation step — every insertion's probe
displacement is accumulated; crossing the first threshold `t1` moves Green to
Yellow, crossing the second, stricter threshold `t2` moves to Red (the point
of the full keyed rehash); the table never de-escalates. -/
def observeProbe (t1 t2 : Nat) (d : Danger) (disp : Nat) : Danger :=
  let acc := d.displacement + disp
  match d.level with
  | DangerLevel.green =>
    if t2 ≤ acc then ⟨DangerLevel.red, acc⟩
    else if t1 ≤ acc then ⟨DangerLevel.yellow, acc⟩
    else ⟨DangerLevel.green, acc⟩
  | DangerLevel.yellow =>
    if t2 ≤ acc then ⟨DangerLevel.red, acc⟩ else ⟨DangerLevel.yellow, acc⟩
  | DangerLevel.red => ⟨DangerLevel.red, acc⟩

-- ===== request::Builder (embedded from src/request.rs) =====

/-- The crate-level error recorded by a builder when an argument conversion
fails (src/request.rs stores `Option<Error>`); the concrete kinds stand for
the conversion failures of the three fallible configuration calls. -/
inductive HttpError : Type
  | invalidMethod
  | invalidUri
  | invalidHeaderName
  | invalidHeaderValue
  deriving DecidableEq

/-- `Parts` of src/request.rs:167: the request head under construction.
Method, URI and version are opaque to the builder logic and are carried as
strings; headers use the header-map model; extensions are a bag. -/
structure Parts : Type where
  method : String
  uri : String
  version : String
  headers : HeaderMap String
  extensions : List String

/-- `Parts::new` (src/request.rs:711): the default head. -/
def Parts.new : Parts :=
  ⟨"GET", "/", "HTTP/1.1", HeaderMap.empty, []⟩

/-- `Builder` of src/request.rs:191: the head being built plus the first
recorded conversion error, if any. -/
structure Builder : Type where
  head : Option Parts
  err : Option HttpError

/-- `Builder::default` (src/request.rs:949). -/
def Builder.new : Builder :=
  ⟨some Parts.new, none⟩

/-- The `head` helper of src/request.rs:938: yields the parts for mutation
only when no error has been recorded. -/
def headFn (head : Option Parts) (err : Option HttpError) : Option Parts :=
  if err.isSome then none else head

/-- `Builder::method` (src/request.rs:772).  The generic `HttpTryFrom`
conversion of the argument is an input: its `Except` outcome. -/
def Builder.method (b : Builder) (conv : Except HttpError String) : Builder :=
  match headFn b.head b.err with
  | none => b
  | some p =>
    match conv with
    | Except.ok s => { head := some { p with method := s }, err := b.err }
    | Except.error e => { head := b.head, err := some e }

/-- `Builder::uri` (src/request.rs:801). -/
def Builder.uri (b : Builder) (conv : Except HttpError String) : Builder :=
  match headFn b.head b.err with
  | none => b
  | some p =>
    match conv with
    | Except.ok s => { head := some { p with uri := s }, err := b.err }
    | Except.error e => { head := b.head, err := some e }

/-- `Builder::version` (src/request.rs:830): infallible configuration. -/
def Builder.version (b : Builder) (v : String) : Builder :=
  match headFn b.head b.err with
  | none => b
  | some p => { head := some { p with version := v }, err := b.err }

/-- `Builder::header` (src/request.rs:855): converts key then value; on both
succeeding, appends to the head's header map (`HeaderMap::append`). -/
def Builder.header (b : Builder) (keyConv : Except HttpError String)
    (valueConv : Except HttpError String) : Builder :=
  match headFn b.head b.err with
  | none => b
  | some p =>
    match keyConv with
    | Except.ok k =>
      match valueConv with
      | Except.ok v =>
        { head := some { p with headers := p.headers.appendPair k v }, err := b.err }
      | Except.error e => { head := b.head, err := some e }
    | Except.error e => { head := b.head, err := some e }

/-- `Builder::extension` (src/request.rs:888): infallible configuration. -/
def Builder.extension (b : Builder) (e : String) : Builder :=
  match headFn b.head b.err with
  | none => b
  | some p => { head := some { p with extensions := p.extensions ++ [e] }, err := b.err }

/-- `Builder::take_parts` (src/request.rs:897): takes the head (reuse of the
builder — head already taken — is the source's panic, modelled as `none`),
then returns the recorded error if one exists, else the parts; the builder is
left with both fields taken. -/
def Builder.take_parts (b : Builder) : Option (Except HttpError Parts × Builder) :=
  match b.head with
  | none => none
  | some ret =>
    match b.err with
    | some e => some (Except.error e, ⟨none, none⟩)
    | none => some (Except.ok ret, ⟨none, none⟩)

/-- `Request` of src/request.rs: head plus body. -/
structure Request (β : Type) : Type where
  head : Parts
  body : β

/-- `Builder::body` (src/request.rs:930): consumes the builder, producing the
request from the taken parts, or the first recorded error. -/
def Builder.body {β : Type} (b : Builder) (payload : β) :
    Option (Except HttpError (Request β) × Builder) :=
  match b.take_parts with
  | none => none
  | some (Except.ok p, b') => some (Except.ok ⟨p, payload⟩, b')
  | some (Except.error e, b') => some (Except.error e, b')

-- ===== HeaderValue (embedded from src/header/value.rs) =====

/-- `HeaderValue` of src/header/value.rs:17: a byte string (bytes as naturals
below 256) with a sensitivity flag. -/
structure HeaderValue : Type where
  inner : List Nat
  is_sensitive : Bool

/-- `InvalidValueError` of src/header/value.rs:25. -/
inductive InvalidValueError : Type
  | invalid
  deriving DecidableEq

/-- `is_valid` of src/header/value.rs:334: a byte is a permitted header-value
byte iff it is at least 32 (on `u8` the upper bound 255 is implicit). -/
def is_valid (b : Nat) : Bool :=
  decide (32 ≤ b)

/-- `is_visible_ascii` of src/header/value.rs:330. -/
def is_visible_ascii (b : Nat) : Bool :=
  is_valid b && decide (b < 127)

/-- The byte scan of `HeaderValue::try_from` (src/header/value.rs:138-145):
the source loop returns an error at the first invalid byte. -/
def allValid : List Nat → Bool
  | [] => true
  | b :: rest => is_valid b && allValid rest

/-- `HeaderValue::try_from` (src/header/value.rs:138): every byte is checked
with `is_valid`; on success the bytes are taken over unchanged and the value
starts non-sensitive. -/
def HeaderValue.try_from (src : List Nat) : Except InvalidValueError HeaderValue :=
  if allValid src then Except.ok { inner := src, is_sensitive := false }
  else Except.error InvalidValueError.invalid

/-- `HeaderValue::try_from_bytes` (src/header/value.rs:123): delegates to
`try_from`. -/
def HeaderValue.try_from_bytes (src : List Nat) : Except InvalidValueError HeaderValue :=
  HeaderValue.try_from src

/-- `HeaderValue::try_from_str` (src/header/value.rs:96): delegates to
`try_from` on the string's UTF-8 bytes. -/
def HeaderValue.try_from_str (src : List Nat) : Except InvalidValueError HeaderValue :=
  HeaderValue.try_from src

/-- `HeaderValue::try_from_shared` (src/header/value.rs:134): delegates to
`try_from`. -/
def HeaderValue.try_from_shared (src : List Nat) : Except InvalidValueError HeaderValue :=
  HeaderValue.try_from src

/-- `HeaderValue::set_sensitive` (src/header/value.rs:235): writes the flag
only. -/
def HeaderValue.set_sensitive (v : HeaderValue) (val : Bool) : HeaderValue :=
  { v with is_sensitive := val }

/-- `HeaderValue::is_sensitive` accessor (src/header/value.rs:260). -/
def HeaderValue.sensitive (v : HeaderValue) : Bool :=
  v.is_sensitive

/-- `HeaderValue::as_bytes` (src/header/value.rs:217). -/
def HeaderValue.as_bytes (v : HeaderValue) : List Nat :=
  v.inner

/-- `HeaderValue::len` (src/header/value.rs:188). -/
def HeaderValue.len (v : HeaderValue) : Nat :=
  v.inner.length

/-- `PartialEq for HeaderValue` (src/header/value.rs:364): equality of the
inner bytes only. -/
def HeaderValue.eqb (a b : HeaderValue) : Bool :=
  a.inner == b.inner

/-- `u8` comparison, as used bytewise by the `Ord` on byte slices. -/
def byteCompare (a b : Nat) : Ordering :=
  if a < b then Ordering.lt else if a = b then Ordering.eq else Ordering.gt

/-- Lexicographic comparison of byte strings: Rust's `Ord` on `[u8]`. -/
def bytesCompare : List Nat → List Nat → Ordering
  | [], [] => Ordering.eq
  | [], _ :: _ => Ordering.lt
  | _ :: _, [] => Ordering.gt
  | a :: ta, b :: tb =>
    match byteCompare a b with
    | Ordering.eq => bytesCompare ta tb
    | o => o

/-- `Ord for HeaderValue` (src/header/value.rs:378): comparison of the inner
bytes only. -/
def HeaderValue.cmp (a b : HeaderValue) : Ordering :=
  bytesCompare a.inner b.inner

-- ===== concrete maps used by the example parts of the claims =====

/-- The §8 end-to-end example map: replace-insert `content-type`, then append
under the case variant `Content-Type`. -/
def exampleCaseMap : HeaderMap String :=
  ((HeaderMap.empty.insertReplacing "content-type" "text/plain").2).appendPair
    "Content-Type" "text/html"

/-- First map of the key-insertion-order equality example (tests/header_map.rs
`eq`): `hello` then `foo`/`foo baz`. -/
def exampleEqA : HeaderMap String :=
  (((HeaderMap.empty.insertReplacing "hello" "world").2.insertReplacing
      "foo" "bar").2).appendPair "foo" "baz"

/-- Second map of the equality example: same per-key sequences, keys in the
other order. -/
def exampleEqB : HeaderMap String :=
  ((((HeaderMap.empty.insertReplacing "foo" "bar").2).appendPair
      "foo" "baz").insertReplacing "hello" "world").2

/-- Value order `[a, b]` under one key. -/
def exampleOrdX : HeaderMap String :=
  (HeaderMap.empty.appendPair "a" "a").appendPair "a" "b"

/-- Value order `[b, a]` under the same key. -/
def exampleOrdY : HeaderMap String :=
  (HeaderMap.empty.appendPair "a" "b").appendPair "a" "a"

/-- The map drained in tests/header_map.rs `drain`: two keys, one of them
two-valued. -/
def exampleDrainMap : HeaderMap String :=
  ((((HeaderMap.empty.insertReplacing "hello" "world").2.insertReplacing
      "zomg" "bar").2).appendPair "hello" "world2")

/-- A builder holding a recorded conversion error: the header value failed to
convert. -/
def builderWithErr : Builder :=
  Builder.new.header (Except.ok "Accept") (Except.error HttpError.invalidHeaderValue)

-- ===== basic lemmas about name equality =====

theorem nameEqb_refl (n : String) : nameEqb n n = true := by
  simp [nameEqb]

theorem nameEqb_eq_iff {a b : String} : nameEqb a b = true ↔ asciiLower a = asciiLower b := by
  simp [nameEqb]

theorem nameEqb_congr_right {k n : String} (h : asciiLower k = asciiLower n) (p : String) :
    nameEqb p k = nameEqb p n := by
  simp [nameEqb, h]

theorem nameEqb_symm {a b : String} (h : nameEqb a b = true) : nameEqb b a = true := by
  rw [nameEqb_eq_iff] at h ⊢
  exact h.symm

-- ===== lemmas about lookup and append =====

theorem getAllE_congr {α : Type} (es : List (String × List α)) {k n : String}
    (h : asciiLower k = asciiLower n) : getAllE es k = getAllE es n := by
  induction es with
  | nil => rfl
  | cons p rest ih =>
    simp only [getAllE, nameEqb_congr_right h p.1, ih]

theorem getAllE_eq_nil_of_not_contains {α : Type} {es : List (String × List α)} {n : String}
    (h : containsE es n = false) : getAllE es n = [] := by
  induction es with
  | nil => rfl
  | cons p rest ih =>
    simp only [containsE, Bool.or_eq_false_iff] at h
    rw [getAllE, if_neg (by simp [h.1])]
    exact ih h.2

theorem getAllE_appendE_self {α : Type} (es : List (String × List α)) (n : String) (v : α) :
    getAllE (appendE es n v) n = getAllE es n ++ [v] := by
  induction es with
  | nil => simp [appendE, getAllE, nameEqb_refl]
  | cons p rest ih =>
    by_cases h : nameEqb p.1 n = true
    · simp [appendE, getAllE, h]
    · simp only [Bool.not_eq_true] at h
      simp [appendE, getAllE, h, ih]

theorem HeaderMap.getAll_appendPair_self {α : Type} (m : HeaderMap α) (n : String) (v : α) :
    (m.appendPair n v).getAll n = m.getAll n ++ [v] :=
  getAllE_appendE_self m.entries n v

theorem HeaderMap.getAll_appendSeq_self {α : Type} (m : HeaderMap α) (n : String) (vs : List α) :
    (m.appendSeq n vs).getAll n = m.getAll n ++ vs := by
  induction vs generalizing m with
  | nil => simp [HeaderMap.appendSeq]
  | cons v rest ih =>
    show ((m.appendPair n v).appendSeq n rest).getAll n = m.getAll n ++ (v :: rest)
    rw [ih, HeaderMap.getAll_appendPair_self]
    simp

-- ===== C1 =====

/-- C1: for a name `n` absent from the map, appending `v1..vk` under `n` (the
map-level append, which creates the key) makes `get_all(n)` yield exactly
`[v1, …, vk]` in append order, the first added value first. -/
theorem appendSeq_getAll_exact {α : Type} (m : HeaderMap α) (n : String) (vs : List α)
    (h : m.containsName n = false) : (m.appendSeq n vs).getAll n = vs := by
  rw [HeaderMap.getAll_appendSeq_self]
  rw [show m.getAll n = [] from getAllE_eq_nil_of_not_contains h]
  simp

/-- Witness for C1 at a concrete input. -/
theorem appendSeq_getAll_exact_witness :
    (HeaderMap.empty (α := String)).containsName "hello" = false ∧
      ((HeaderMap.empty (α := String)).appendSeq "hello" ["world", "zomg"]).getAll "hello"
        = ["world", "zomg"] :=
  ⟨by decide, appendSeq_getAll_exact HeaderMap.empty "hello" ["world", "zomg"] (by decide)⟩

-- ===== C2 =====

theorem insertE_spec {α : Type} (es : List (String × List α)) (n : String) (v : α) :
    getAllE (insertE es n v).2 n = [v] ∧
      (insertE es n v).1 = (if containsE es n then some (getAllE es n) else none) := by
  induction es with
  | nil => simp [insertE, getAllE, containsE, nameEqb_refl]
  | cons p rest ih =>
    by_cases h : nameEqb p.1 n = true
    · simp [insertE, getAllE, containsE, h]
    · simp only [Bool.not_eq_true] at h
      simp [insertE, getAllE, containsE, h, ih]

/-- C2: replace-semantics insertion after any history: `insert_replacing(n, v)`
leaves `get_all(n) == [v]` and returns the prior ordered value sequence
exactly when the key was present, nothing when it was absent. -/
theorem insertReplacing_spec {α : Type} (m : HeaderMap α) (n : String) (v : α) :
    (m.insertReplacing n v).2.getAll n = [v] ∧
      (m.insertReplacing n v).1
        = (if m.containsName n then some (m.getAll n) else none) :=
  insertE_spec m.entries n v

-- ===== C3 =====

theorem HeaderMap.getAll_congr {α : Type} (m : HeaderMap α) {k n : String}
    (h : asciiLower k = asciiLower n) : m.getAll k = m.getAll n :=
  getAllE_congr m.entries h

/-- C3: lookups are ASCII-case-insensitive — for any map state and any two
keys that are ASCII case permutations of each other, `get_first` agrees; and
in the §8 end-to-end example, replace-inserting under `content-type` and then
appending under `Content-Type` makes `get_all("CONTENT-TYPE")` yield
`["text/plain", "text/html"]`. -/
theorem getFirst_case_insensitive {α : Type} (m : HeaderMap α) (k k' : String)
    (h : asciiLower k = asciiLower k') :
    m.getFirst k = m.getFirst k' ∧
      exampleCaseMap.getAll "CONTENT-TYPE" = ["text/plain", "text/html"] := by
  refine ⟨?_, by decide⟩
  show (m.getAll k).head? = (m.getAll k').head?
  rw [m.getAll_congr h]

/-- Witness for C3 at a concrete map and key pair. -/
theorem getFirst_case_insensitive_witness :
    asciiLower "Content-Type" = asciiLower "CONTENT-type" ∧
      (exampleCaseMap.getFirst "Content-Type" = exampleCaseMap.getFirst "CONTENT-type" ∧
        exampleCaseMap.getAll "CONTENT-TYPE" = ["text/plain", "text/html"]) :=
  ⟨by decide, getFirst_case_insensitive exampleCaseMap "Content-Type" "CONTENT-type" (by decide)⟩

-- ===== C4 =====

theorem containsE_iff {α : Type} {es : List (String × List α)} {n : String} :
    containsE es n = true ↔ ∃ p ∈ es, nameEqb p.1 n = true := by
  induction es with
  | nil => simp [containsE]
  | cons q rest ih =>
    simp only [containsE, Bool.or_eq_true, ih, List.mem_cons]
    constructor
    · rintro (hq | ⟨p, hp, hpe⟩)
      · exact ⟨q, Or.inl rfl, hq⟩
      · exact ⟨p, Or.inr hp, hpe⟩
    · rintro ⟨p, hp | hp, hpe⟩
      · exact Or.inl (hp ▸ hpe)
      · exact Or.inr ⟨p, hp, hpe⟩

theorem HeaderMap.getAll_eq_nil {α : Type} {m : HeaderMap α} {n : String}
    (h : m.containsName n = false) : m.getAll n = [] :=
  getAllE_eq_nil_of_not_contains h

/-- C4: two maps compare equal exactly when every key's ordered value
sequence agrees (same key set, per-key value order identical, group order
irrelevant); concretely, the maps of the `eq` test built with the same
per-key sequences under different key order are equal, while value order
`[a, b]` versus `[b, a]` under one key distinguishes maps. -/
theorem headerMap_eqb_iff {α : Type} [BEq α] [LawfulBEq α] (a b : HeaderMap α) :
    (a.eqb b = true ↔ ∀ n, a.getAll n = b.getAll n) ∧
      exampleEqA.eqb exampleEqB = true ∧ exampleOrdX.eqb exampleOrdY = false := by
  refine ⟨?_, by decide, by decide⟩
  rw [HeaderMap.eqb, Bool.and_eq_true, List.all_eq_true, List.all_eq_true]
  constructor
  · rintro ⟨ha, hb⟩ n
    by_cases hca : a.containsName n = true
    · obtain ⟨p, hp, hpe⟩ := containsE_iff.1 hca
      have h1 : b.getAll p.1 = a.getAll p.1 := eq_of_beq (ha p hp)
      have h2 : asciiLower p.1 = asciiLower n := nameEqb_eq_iff.1 hpe
      calc a.getAll n = a.getAll p.1 := (a.getAll_congr h2).symm
        _ = b.getAll p.1 := h1.symm
        _ = b.getAll n := b.getAll_congr h2
    · have hA : a.getAll n = [] := a.getAll_eq_nil (by simpa using hca)
      by_cases hcb : b.containsName n = true
      · obtain ⟨q, hq, hqe⟩ := containsE_iff.1 hcb
        have h1 : a.getAll q.1 = b.getAll q.1 := eq_of_beq (hb q hq)
        have h2 : asciiLower q.1 = asciiLower n := nameEqb_eq_iff.1 hqe
        calc a.getAll n = [] := hA
          _ = a.getAll q.1 := by rw [a.getAll_congr h2, hA]
          _ = b.getAll q.1 := h1
          _ = b.getAll n := b.getAll_congr h2
      · rw [hA, b.getAll_eq_nil (by simpa using hcb)]
  · intro h
    exact ⟨fun p _ => beq_iff_eq.2 (h p.1).symm, fun p _ => beq_iff_eq.2 (h p.1)⟩

/-- Witness for C4: the characterization applied to the concrete `eq`-test
maps. -/
theorem headerMap_eqb_iff_witness :
    exampleEqA.eqb exampleEqB = true ∧ exampleOrdX.eqb exampleOrdY = false :=
  (headerMap_eqb_iff exampleEqA exampleEqB).2

-- ===== C5 =====

theorem getAllE_of_mem_wf {α : Type} {es : List (String × List α)}
    (hwf : wfE es = true) {p : String × List α} (hp : p ∈ es) : getAllE es p.1 = p.2 := by
  induction es with
  | nil => cases hp
  | cons q rest ih =>
    rw [wfE, Bool.and_eq_true, List.all_eq_true] at hwf
    rcases List.mem_cons.1 hp with h | h
    · subst h
      simp [getAllE, nameEqb_refl]
    · have hne : nameEqb q.1 p.1 = false := by
        simpa using hwf.1 p h
      rw [getAllE, if_neg (by simp [hne])]
      exact ih hwf.2 h

/-- C5: a fully exhausted drain of a well-formed map yields one group per
distinct key (exactly `len()` groups), each group carrying that key's ordered
value sequence, and leaves the map empty: `len() == 0` and no key remains
retrievable. -/
theorem drainAll_exhaustive {α : Type} (m : HeaderMap α) (hwf : m.wf = true) :
    m.drainAll.1.length = m.len ∧
      (∀ p ∈ m.drainAll.1, m.getAll p.1 = p.2) ∧
      m.drainAll.2.len = 0 ∧
      (∀ n, m.drainAll.2.getAll n = [] ∧ m.drainAll.2.containsName n = false) :=
  ⟨rfl, fun _ hp => getAllE_of_mem_wf hwf hp, rfl, fun _ => ⟨rfl, rfl⟩⟩

/-- Witness for C5 on the `drain` test's map. -/
theorem drainAll_exhaustive_witness :
    exampleDrainMap.wf = true ∧
      exampleDrainMap.drainAll.1.length = exampleDrainMap.len ∧
      exampleDrainMap.drainAll.2.len = 0 :=
  ⟨by decide, (drainAll_exhaustive exampleDrainMap (by decide)).1,
    (drainAll_exhaustive exampleDrainMap (by decide)).2.2.1⟩

-- ===== C6 =====

/-- C6: capacity-checked insertion is all-or-nothing — within the
implementation-defined entry and value ceilings the full append effect is
applied and no error is reported; at the ceiling the very same map is handed
back (no key or value dropped, no partial effect) together with the distinct
`capacityExceeded` error. -/
theorem tryAppend_all_or_nothing {α : Type} (maxE maxV : Nat) (m : HeaderMap α)
    (n : String) (v : α) :
    (m.tryAppend maxE maxV n v = (m.appendPair n v, none) ∧
        (if m.containsName n then m.len else m.len + 1) ≤ maxE ∧ m.lenValues + 1 ≤ maxV)
    ∨ (m.tryAppend maxE maxV n v = (m, some CapacityError.capacityExceeded) ∧
        ¬((if m.containsName n then m.len else m.len + 1) ≤ maxE ∧ m.lenValues + 1 ≤ maxV)) := by
  by_cases h : (if m.containsName n then m.len else m.len + 1) ≤ maxE ∧ m.lenValues + 1 ≤ maxV
  · exact Or.inl ⟨by simp only [HeaderMap.tryAppend]; rw [if_pos h], h⟩
  · exact Or.inr ⟨by simp only [HeaderMap.tryAppend]; rw [if_neg h], h⟩

-- ===== C7 =====

/-- C7: Red is sticky — once a table's danger level is Red (the state entered
at the second, stricter displacement threshold, whereafter hashing uses the
keyed per-instance function), no further sequence of observed insertions ever
moves the level out of Red, and the table keeps hashing with the seeded
function. -/
theorem danger_red_sticky (t1 t2 : Nat) (d : Danger) (probes : List Nat)
    (h : d.level = DangerLevel.red) :
    (probes.foldl (observeProbe t1 t2) d).level = DangerLevel.red ∧
      (probes.foldl (observeProbe t1 t2) d).usesSeededHash = true := by
  have main : ∀ (ps : List Nat) (d' : Danger), d'.level = DangerLevel.red →
      (ps.foldl (observeProbe t1 t2) d').level = DangerLevel.red := by
    intro ps
    induction ps with
    | nil => exact fun _ hd => hd
    | cons p rest ih =>
      intro d' hd
      have hstep : (observeProbe t1 t2 d' p).level = DangerLevel.red := by
        simp [observeProbe, hd]
      exact ih _ hstep
  have h1 := main probes d h
  exact ⟨h1, by simp [Danger.usesSeededHash, h1]⟩

/-- Witness for C7 from a concrete Red state and probe sequence. -/
theorem danger_red_sticky_witness :
    (Danger.mk DangerLevel.red 5).level = DangerLevel.red ∧
      (([3, 1, 4].foldl (observeProbe 4 8) (Danger.mk DangerLevel.red 5)).level
          = DangerLevel.red ∧
        ([3, 1, 4].foldl (observeProbe 4 8) (Danger.mk DangerLevel.red 5)).usesSeededHash
          = true) :=
  ⟨rfl, danger_red_sticky 4 8 ⟨DangerLevel.red, 5⟩ [3, 1, 4] rfl⟩

-- ===== C8 =====

/-- C8: once a builder holds a recorded conversion error, every further
configuration call returns the builder untouched (no field update, no header
appended, and the first error is never overwritten), and `body` produces that
first error instead of a request; moreover the failing call on an error-free
live builder is exactly what records the error, leaving the parts as they
were. -/
theorem builder_first_error_wins (b : Builder) (e : HttpError) (hb : b.err = some e) :
    (∀ mc, b.method mc = b) ∧
    (∀ uc, b.uri uc = b) ∧
    (∀ vv, b.version vv = b) ∧
    (∀ kc vc, b.header kc vc = b) ∧
    (∀ ec, b.extension ec = b) ∧
    (∀ (β : Type) (payload : β) (p : Parts), b.head = some p →
        b.body payload = some (Except.error e, ⟨none, none⟩)) ∧
    (∀ (b' : Builder) (p' : Parts) (e' : HttpError), b'.err = none → b'.head = some p' →
        (b'.method (Except.error e')).err = some e' ∧
        (b'.method (Except.error e')).head = some p' ∧
        (b'.uri (Except.error e')).err = some e' ∧
        (b'.uri (Except.error e')).head = some p' ∧
        (∀ vc, (b'.header (Except.error e') vc).err = some e' ∧
          (b'.header (Except.error e') vc).head = some p') ∧
        (∀ k, (b'.header (Except.ok k) (Except.error e')).err = some e' ∧
          (b'.header (Except.ok k) (Except.error e')).head = some p')) := by
  refine ⟨?_, ?_, ?_, ?_, ?_, ?_, ?_⟩
  · intro mc
    simp [Builder.method, headFn, hb]
  · intro uc
    simp [Builder.uri, headFn, hb]
  · intro vv
    simp [Builder.version, headFn, hb]
  · intro kc vc
    simp [Builder.header, headFn, hb]
  · intro ec
    simp [Builder.extension, headFn, hb]
  · intro β payload p hp
    simp [Builder.body, Builder.take_parts, hp, hb]
  · intro b' p' e' hn hh
    refine ⟨?_, ?_, ?_, ?_, fun vc => ⟨?_, ?_⟩, fun k => ⟨?_, ?_⟩⟩ <;>
      simp [Builder.method, Builder.uri, Builder.header, headFn, hn, hh]

/-- Witness for C8 on a builder whose header-value conversion failed. -/
theorem builder_first_error_wins_witness :
    builderWithErr.err = some HttpError.invalidHeaderValue ∧
      builderWithErr.method (Except.ok "POST") = builderWithErr ∧
      builderWithErr.body (0 : Nat)
        = some (Except.error HttpError.invalidHeaderValue, ⟨none, none⟩) := by
  have h := builder_first_error_wins builderWithErr HttpError.invalidHeaderValue rfl
  exact ⟨rfl, h.1 _, h.2.2.2.2.2.1 Nat 0 Parts.new rfl⟩

-- ===== C9 =====

theorem allValid_iff {l : List Nat} : allValid l = true ↔ ∀ b ∈ l, 32 ≤ b := by
  induction l with
  | nil => simp [allValid]
  | cons b rest ih => simp [allValid, is_valid, ih]

/-- C9: `HeaderValue` construction from raw bytes succeeds exactly when every
input byte lies in 32..=255 (for `u8` input the upper bound is inherent, the
check rejects precisely bytes below 32); on success the bytes are carried
over unchanged and the value starts non-sensitive, otherwise the sole
`InvalidValueError` is returned and no value is produced; `try_from_bytes`,
`try_from_str` and `try_from_shared` all delegate to the same check. -/
theorem try_from_ok_iff (src : List Nat) (hr : ∀ b ∈ src, b ≤ 255) :
    ((∃ hv, HeaderValue.try_from src = Except.ok hv ∧ hv.inner = src ∧
        hv.is_sensitive = false) ↔ ∀ b ∈ src, 32 ≤ b ∧ b ≤ 255) ∧
      (¬(∀ b ∈ src, 32 ≤ b) →
        HeaderValue.try_from src = Except.error InvalidValueError.invalid) ∧
      HeaderValue.try_from_bytes src = HeaderValue.try_from src ∧
      HeaderValue.try_from_str src = HeaderValue.try_from src ∧
      HeaderValue.try_from_shared src = HeaderValue.try_from src := by
  refine ⟨?_, ?_, rfl, rfl, rfl⟩
  · by_cases h : allValid src = true
    · constructor
      · intro _ b hb
        exact ⟨allValid_iff.1 h b hb, hr b hb⟩
      · intro _
        exact ⟨⟨src, false⟩, by simp [HeaderValue.try_from, h], rfl, rfl⟩
    · constructor
      · rintro ⟨hv, hok, -, -⟩
        rw [HeaderValue.try_from.eq_def, if_neg h] at hok
        simp at hok
      · intro hall
        exact absurd (allValid_iff.2 fun b hb => (hall b hb).1) h
  · intro hnot
    have h : allValid src ≠ true := fun hc => hnot (allValid_iff.1 hc)
    rw [HeaderValue.try_from.eq_def, if_neg h]

/-- Witness for C9: a valid opaque-byte input and an input with a control
byte. -/
theorem try_from_ok_iff_witness :
    HeaderValue.try_from [104, 250] = Except.ok ⟨[104, 250], false⟩ ∧
      HeaderValue.try_from [10] = Except.error InvalidValueError.invalid := by
  refine ⟨by rfl, ?_⟩
  exact (try_from_ok_iff [10] (by decide)).2.1 (by decide)

-- ===== C10 =====

theorem bytesCompare_self (l : List Nat) : bytesCompare l l = Ordering.eq := by
  induction l with
  | nil => rfl
  | cons a t ih => simp [bytesCompare, byteCompare, ih]

/-- C10: sensitivity never shows through comparison — values with the same
bytes are equal and compare `Equal` whatever their sensitivity flags, and
`set_sensitive` changes the flag alone: bytes, length and every equality or
ordering comparison, on either side, are untouched. -/
theorem sensitivity_invisible (a b : HeaderValue) (h : a.inner = b.inner) :
    (a.eqb b = true ∧ a.cmp b = Ordering.eq) ∧
      (∀ (v : HeaderValue) (f : Bool),
        (v.set_sensitive f).inner = v.inner ∧
        (v.set_sensitive f).as_bytes = v.as_bytes ∧
        (v.set_sensitive f).len = v.len ∧
        (v.set_sensitive f).sensitive = f ∧
        (∀ w, (v.set_sensitive f).eqb w = v.eqb w ∧ w.eqb (v.set_sensitive f) = w.eqb v ∧
          (v.set_sensitive f).cmp w = v.cmp w ∧ w.cmp (v.set_sensitive f) = w.cmp v)) := by
  refine ⟨⟨?_, ?_⟩, ?_⟩
  · simp [HeaderValue.eqb, h]
  · simp [HeaderValue.cmp, h, bytesCompare_self]
  · intro v f
    exact ⟨rfl, rfl, rfl, rfl, fun w => ⟨rfl, rfl, rfl, rfl⟩⟩

/-- Witness for C10: same bytes, opposite sensitivity flags. -/
theorem sensitivity_invisible_witness :
    (HeaderValue.mk [104, 105] true).inner = (HeaderValue.mk [104, 105] false).inner ∧
      ((HeaderValue.mk [104, 105] true).eqb (HeaderValue.mk [104, 105] false) = true ∧
        (HeaderValue.mk [104, 105] true).cmp (HeaderValue.mk [104, 105] false)
          = Ordering.eq) :=
  ⟨rfl, (sensitivity_invisible ⟨[104, 105], true⟩ ⟨[104, 105], false⟩ rfl).1⟩
